import Mathlib

/-!
Shallow embedding of the 2048-style merge engine of `src/app/index.tsx`
(`Mosaic2048Game`): tile / grid data model, the `moveRowLeft` pass with its
in-place tile mutation semantics, direction dispatch (`transpose` /
`flipHorizontally`), `handleSwipe`, `addRandomTile`, `hasAvailableMoves`,
`endGame`, `resetGame`, `startCountdown`, `toggleSidebar` and `createTile`.

React state updates are modelled by explicit state passing on `GameSt`.
Animation-only data (`scale`, `opacity`, `Animated` timing) is presentation
and is not part of the state; the `isMerging` flag is kept because the merge
pass writes it.  JavaScript object references are modelled by values: tiles
carry their `id`, and reference comparisons (`!==`) become value comparisons,
which coincide with reference semantics on boards whose tile ids are unique
(the program's invariant).  The shared mutable tile objects (one object
referenced from `grid`, `tiles` and `mergedTiles` at once) are modelled by
applying the same field updates to every list that holds the tile.
-/

/-- A tile, `type Tile` of the source minus the two `Animated.Value`
presentation fields. `posX`/`posY` mirror `position.x`/`position.y`, which are
set at creation and never updated by moves (the grid is the source of truth
for placement). -/
structure Tile where
  id : Nat
  value : Nat
  isMatched : Bool
  isMerging : Bool
  posX : Nat
  posY : Nat
deriving Repr, DecidableEq

/-- `type GameState = 'idle' | 'countdown' | 'playing' | 'gameover'`. -/
inductive GState where
  | idle
  | countdown
  | playing
  | gameover
deriving Repr, DecidableEq

/-- A swipe direction. -/
inductive Dir where
  | up
  | down
  | left
  | right
deriving Repr, DecidableEq

abbrev Row := List (Option Tile)
abbrev Grid := List Row

/-- `const GRID_SIZE = 4`. -/
def GRID_SIZE : Nat := 4

/-- `const BASE_SCORE_PER_MERGE = 10`. -/
def BASE_SCORE_PER_MERGE : Nat := 10

/-- `Math.floor(BASE_SCORE_PER_MERGE * mergeValue * Math.pow(COMBO_MULTIPLIER, newMergeStreak))`
with `COMBO_MULTIPLIER = 1.5`, computed exactly over naturals:
`10 * v * 1.5 ^ s = 10 * v * 3 ^ s / 2 ^ s`, and the floor of that rational is
natural floor division.  (JavaScript doubles evaluate the same product exactly
for all tile values and streaks reachable in a 90-second game.) -/
def mergePoints (streak v : Nat) : Nat :=
  BASE_SCORE_PER_MERGE * v * 3 ^ streak / 2 ^ streak

/-- The in-place mutation a merge applies to the absorbing tile object:
`tiles[i-1].isMatched = true; tiles[i-1].isMerging = true; tiles[i-1].value *= 2`. -/
def mutTile (t : Tile) : Tile :=
  { t with value := 2 * t.value, isMatched := true, isMerging := true }

/-- Result of the scan loop of `moveRowLeft` over the filtered tile list. -/
structure GoRes where
  placed : List Tile
  merges : List Tile
  points : Nat
  moved : Bool
  mergedPrev : Bool
deriving Repr, DecidableEq

/-- The loop `for (let i = 0; i < tiles.length; i++)` of `moveRowLeft`, for
`i ≥ 1`.  `prev` is `tiles[i-1]` with its original fields: the source reads
each array slot exactly once (slot `i-1` at iteration `i`, before writing it),
so every read sees pre-pass fields.  `ri` is `resultIdx`.  A merge drops the
current tile and mutates `prev`; whether that mutation reaches the result row
depends on whether `prev` itself was placed, which the caller knows, so the
callee reports it through `mergedPrev` and the caller applies `mutTile` to its
placed copy.  When `prev` was itself dropped by the previous iteration the
mutation hits an object absent from the result row (a ghost absorber): the
merge is still recorded and scored, but the result row keeps nothing of it. -/
def goRow (origRow : Row) (streak : Nat) :
    Tile → Nat → Nat → List Tile → GoRes
  | _prev, _i, _ri, [] => ⟨[], [], 0, false, false⟩
  | prev, i, ri, c :: rest =>
    if prev.value = c.value ∧ prev.isMatched = false then
      let r := goRow origRow streak c (i + 1) ri rest
      let m := mutTile prev
      ⟨r.placed, m :: r.merges, mergePoints streak m.value + r.points, true, true⟩
    else
      let r := goRow origRow streak c (i + 1) (ri + 1) rest
      let cF := if r.mergedPrev then mutTile c else c
      ⟨cF :: r.placed, r.merges, r.points,
        (decide (ri ≠ i) || decide (origRow.getD ri none ≠ some c)) || r.moved,
        false⟩

/-- Result of `moveRowLeft` on one row: the new row, the tiles pushed to
`mergedTiles` (the mutated absorbers), the summed `setScore` deltas and the
`moved` contribution. -/
structure RowRes where
  row : Row
  merges : List Tile
  points : Nat
  moved : Bool
deriving Repr, DecidableEq

/-- `moveRowLeft`: filter out nulls, scan, pad the result row with nulls.
Iteration `i = 0` always places (the merge guard requires `i > 0`); its
`moved` check is `resultIdx !== i || row[resultIdx] !== currentTile` with
`resultIdx = i = 0`. -/
def moveRowLeft (origRow : Row) (streak : Nat) : RowRes :=
  match origRow.filterMap id with
  | [] => ⟨List.replicate GRID_SIZE none, [], 0, false⟩
  | c :: rest =>
    let r := goRow origRow streak c 1 1 rest
    let c0 := if r.mergedPrev then mutTile c else c
    let placed := c0 :: r.placed
    ⟨placed.map some ++ List.replicate (GRID_SIZE - placed.length) none,
      r.merges, r.points,
      decide (origRow.getD 0 none ≠ some c) || r.moved⟩

/-- `safeProcessRow`: empty rows map to a row of nulls. -/
def safeProcessRow (row : Row) (streak : Nat) : RowRes :=
  if row.isEmpty then ⟨List.replicate GRID_SIZE none, [], 0, false⟩
  else moveRowLeft row streak

/-- `safeFlipHorizontally`: `[...row].reverse()`, empty rows map to nulls. -/
def safeFlipHorizontally (row : Row) : Row :=
  if row.isEmpty then List.replicate GRID_SIZE none else row.reverse

/-- `transpose`: `result[j][i] = matrix[i][j]`, dimensions `cols × rows` taken
from the first row. -/
def transposeM (m : Grid) : Grid :=
  (List.range (m.headD []).length).map (fun j => m.map (fun row => row.getD j none))

/-- The write-back loop of the `up`/`down` branches:
`gridCopy[i][j] = transposed[j][i]` over the `GRID_SIZE × GRID_SIZE` frame. -/
def untransposeM (t : Grid) : Grid :=
  (List.range GRID_SIZE).map (fun i =>
    (List.range GRID_SIZE).map (fun j => (t.getD j []).getD i none))

/-- Result of processing a whole grid in one direction. -/
structure MoveRes where
  grid : Grid
  merges : List Tile
  points : Nat
  moved : Bool
deriving Repr, DecidableEq

/-- Collect the per-row outcomes in row order: `mergedTiles` entries are pushed
row by row, `setScore` deltas accumulate, `moved` is a shared flag. -/
def collectRes (grid : Grid) (rs : List RowRes) : MoveRes :=
  ⟨grid, (rs.map RowRes.merges).flatten, (rs.map RowRes.points).sum,
    rs.any RowRes.moved⟩

/-- The four direction branches of `handleSwipe`: `left` processes rows,
`right` flips before and after, `up` transposes, processes and writes back,
`down` transposes, flips, processes, flips and writes back. -/
def moveGrid (g : Grid) (dir : Dir) (streak : Nat) : MoveRes :=
  match dir with
  | .left =>
    let rs := g.map (fun row => safeProcessRow row streak)
    collectRes (rs.map RowRes.row) rs
  | .right =>
    let rs := g.map (fun row => safeProcessRow (safeFlipHorizontally row) streak)
    collectRes (rs.map (fun r => safeFlipHorizontally r.row)) rs
  | .up =>
    let rs := (transposeM g).map (fun row => safeProcessRow row streak)
    collectRes (untransposeM (rs.map RowRes.row)) rs
  | .down =>
    let rs := (transposeM g).map
      (fun row => safeProcessRow (safeFlipHorizontally row) streak)
    collectRes (untransposeM (rs.map (fun r => safeFlipHorizontally r.row))) rs

/-- Value of an optional cell, used for board value sums. -/
def valO : Option Tile → Nat
  | none => 0
  | some t => t.value

/-- Value sum of a row. -/
def sumRow (r : Row) : Nat := (r.map valO).sum

/-- Value sum of a board. -/
def sumGrid (g : Grid) : Nat := (g.map sumRow).sum

/-- Value sum of a tile list. -/
def sumTiles (l : List Tile) : Nat := (l.map Tile.value).sum

/-- `grid[y][x]` with out-of-range reads giving `null`. -/
def getCell (g : Grid) (y x : Nat) : Option Tile :=
  (g.getD y []).getD x none

/-- `newGrid[y][x] = v`. -/
def setCell (g : Grid) (y x : Nat) (v : Option Tile) : Grid :=
  g.set y ((g.getD y []).set x v)

/-- `getEmptyCells`: scan `y` outer, `x` inner, pushing `{x, y}`. -/
def getEmptyCells (g : Grid) : List (Nat × Nat) :=
  ((List.range GRID_SIZE).map (fun y =>
    (List.range GRID_SIZE).filterMap (fun x =>
      if getCell g y x = none then some (x, y) else none))).flatten

/-- `isBoardFull`. -/
def isBoardFull (g : Grid) : Bool := (getEmptyCells g).isEmpty

/-- `hasAvailableMoves`: not full, or some cell has a right or bottom
neighbour of equal value. -/
def hasAvailableMoves (g : Grid) : Bool :=
  if !isBoardFull g then true
  else
    (List.range GRID_SIZE).any (fun y =>
      (List.range GRID_SIZE).any (fun x =>
        match getCell g y x with
        | none => false
        | some t =>
          (decide (x < GRID_SIZE - 1) &&
            (match getCell g y (x + 1) with
             | some u => decide (u.value = t.value)
             | none => false)) ||
          (decide (y < GRID_SIZE - 1) &&
            (match getCell g (y + 1) x with
             | some u => decide (u.value = t.value)
             | none => false))))

/-- The React state of `Mosaic2048Game` that the engine reads and writes.
`lastMergeTime` is `lastMergeTime` (ms timestamps as naturals),
`tileIdCounter` is `tileIdCounter.current`, and `countdownTimerCount` counts
the countdown intervals started by `startCountdown` (the source stores only
the latest handle in `countdownTimerRef`). -/
structure GameSt where
  grid : Grid
  tiles : List Tile
  gameState : GState
  score : Nat
  highScore : Nat
  timeLeft : Nat
  countdown : Nat
  mergeStreak : Nat
  lastMergeTime : Nat
  isSidebarOpen : Bool
  tileIdCounter : Nat
  countdownTimerCount : Nat
deriving Repr, DecidableEq

/-- `createTile(x, y, value)`: `id = Date.now() + tileIdCounter.current++`. -/
def createTile (x y value now counter : Nat) : Tile :=
  ⟨now + counter, value, false, false, x, y⟩

/-- The id of the `n`-th `createTile` call of a process whose clock reads
`ts n` at that call: the counter has been incremented once per earlier call. -/
def createTileIdAt (ts : Nat → Nat) (n : Nat) : Nat :=
  (createTile 0 0 2 (ts n) n).id

/-- `addRandomTile` with the grid snapshot its closures read made explicit.
The deferred spawn of `handleSwipe` runs a `useCallback`-memoized
`addRandomTile` whose `getEmptyCells` closes over the pre-move `grid` state
(`snapshot`), while the placement itself goes through a functional `setGrid`
update whose double-check reads the then-current grid.  The two random draws
are passed in: `randIdx` is `Math.floor(Math.random() * emptyCells.length)`
and `isTwo` is `Math.random() < 0.9`; `setTiles` appends unconditionally. -/
def addRandomTileOn (st : GameSt) (snapshot : Grid) (randIdx : Nat) (isTwo : Bool)
    (now : Nat) : GameSt :=
  let emptyCells := getEmptyCells snapshot
  if emptyCells.isEmpty then st
  else
    let cell := emptyCells.getD randIdx (0, 0)
    let value := if isTwo then 2 else 4
    let newTile := createTile cell.1 cell.2 value now st.tileIdCounter
    let st1 := { st with tileIdCounter := st.tileIdCounter + 1 }
    if (getCell st1.grid cell.2 cell.1).isSome then
      { st1 with tiles := st1.tiles ++ [newTile] }
    else
      { st1 with grid := setCell st1.grid cell.2 cell.1 (some newTile),
                 tiles := st1.tiles ++ [newTile] }

/-- `addRandomTile` invoked with fresh closures (as by `startGame`'s two
initial spawns): the snapshot is the current grid. -/
def addRandomTile (st : GameSt) (randIdx : Nat) (isTwo : Bool) (now : Nat) : GameSt :=
  addRandomTileOn st st.grid randIdx isTwo now

/-- The reset loop at the start of `handleSwipe`: `tile.isMatched = false` on
every tile object currently in the grid. -/
def clearTileFlag (t : Tile) : Tile := { t with isMatched := false }

/-- Clear the merge flags of one row. -/
def clearRow (r : Row) : Row := r.map (Option.map clearTileFlag)

/-- Clear the merge flags of the whole grid. -/
def clearFlags (g : Grid) : Grid := g.map clearRow

/-- Whether some grid cell holds a tile with the given id. -/
def gridHasId (g : Grid) (i : Nat) : Bool :=
  g.any (fun row => row.any (fun o =>
    match o with
    | some t => decide (t.id = i)
    | none => false))

/-- Effect of the reset loop on the `tiles` state list: the list holds the
same objects as the grid, so tiles present in the grid get their flag
cleared; stale entries (absorbed in earlier moves) are untouched. -/
def syncTilesNoop (tiles : List Tile) (g : Grid) : List Tile :=
  tiles.map (fun t => if gridHasId g t.id then clearTileFlag t else t)

/-- Effect of the reset loop plus the merge mutations on the `tiles` state
list: absorbers (the entries of `mergedTiles`) take their mutated fields,
other tiles in the grid get their flag cleared.  Lookup is by id, which
matches object identity under the program's unique-id invariant. -/
def syncTilesMoved (tiles : List Tile) (g : Grid) (merged : List Tile) : List Tile :=
  tiles.map (fun t =>
    match merged.find? (fun m => m.id == t.id) with
    | some m => m
    | none => if gridHasId g t.id then clearTileFlag t else t)

/-- One cell of the pre-move grid object as the deferred timeout closures
later read it: the shared tile objects carry the pass's in-place mutations,
so an absorber (an entry of `mergedTiles`, matched by id) shows its doubled
value and set flags, and every other tile shows the flag cleared by the reset
loop.  Absorbed tiles still sit in their pre-move cells of this object. -/
def staleCell (merged : List Tile) : Option Tile → Option Tile
  | none => none
  | some t =>
    match merged.find? (fun m => m.id == t.id) with
    | some m => some m
    | none => some (clearTileFlag t)

/-- The pre-move grid object after the pass: pre-move arrangement, mutated
tiles.  This is the board the `useCallback`-memoized `getEmptyCells` /
`hasAvailableMoves` held by the `setTimeout` continuations actually scan —
`setGrid(gridCopy)` installs new row arrays that those stale closures never
see. -/
def staleGrid (g : Grid) (merged : List Tile) : Grid :=
  g.map (fun row => row.map (staleCell merged))

/-- Result of the synchronous part of `handleSwipe` (everything before the
spawn timeout): the new state, the `moved` flag and `mergedTiles`. -/
structure SwipeRes where
  st : GameSt
  moved : Bool
  merged : List Tile
deriving Repr, DecidableEq

/-- `handleSwipe` up to (and excluding) the spawn timeout.  Early return when
the sidebar is open or the game is not playing.  `newMergeStreak` is computed
once per move from `Date.now() - lastMergeTime` (truncated subtraction gives
`0 < 2000` when the clock reads earlier than the last merge, matching the
JavaScript comparison on a negative difference).  The per-merge `setScore`
calls run during the row pass, so the score delta applies even on the
`!moved` early return (where it is provably zero); `setGrid`,
`setLastMergeTime` and `setMergeStreak` run only when `moved`, but the
in-place tile mutations (flag reset, absorber updates) are visible in the
state regardless, because the grid and `tiles` hold the same objects. -/
def handleSwipeMove (st : GameSt) (dir : Dir) (now : Nat) : SwipeRes :=
  if st.isSidebarOpen || !decide (st.gameState = GState.playing) then ⟨st, false, []⟩
  else
    let newMergeStreak := if now - st.lastMergeTime < 2000 then st.mergeStreak + 1 else 0
    let g0 := clearFlags st.grid
    let res := moveGrid g0 dir newMergeStreak
    if res.moved then
      ⟨{ st with
          grid := res.grid,
          tiles := syncTilesMoved st.tiles st.grid res.merges,
          score := st.score + res.points,
          mergeStreak := if res.merges.length > 0 then newMergeStreak else st.mergeStreak,
          lastMergeTime := if res.merges.length > 0 then now else st.lastMergeTime },
        true, res.merges⟩
    else
      ⟨{ st with
          grid := g0,
          tiles := syncTilesNoop st.tiles st.grid,
          score := st.score + res.points },
        false, res.merges⟩

/-- `endGame`: enter `gameover`, update the high score on strict improvement.
(The play-clock interval is also cleared; timers are not part of the model.) -/
def endGame (st : GameSt) : GameSt :=
  { st with gameState := GState.gameover,
            highScore := if st.score > st.highScore then st.score else st.highScore }

/-- `endGame` as the program actually invokes it, from a timer or timeout
callback: the function instance was created at an earlier render, so the
`score` and `highScore` it compares are the captured values of that render
(`scoreCap`, `highScoreCap`), while `setGameState` / `setHighScore(score)`
write the live state — `setHighScore` stores the captured score. -/
def endGameCaptured (st : GameSt) (scoreCap highScoreCap : Nat) : GameSt :=
  { st with gameState := GState.gameover,
            highScore := if scoreCap > highScoreCap then scoreCap else st.highScore }

/-- The play-clock expiry path: the interval created by the `useEffect` on
`gameState === 'playing'` (deps `[gameState]`, so it is never re-created
during play) ticks `timeLeft` to 0 and calls the `endGame` captured at the
render where Playing began — whose `score` is 0 (zeroed by `startGame` in
the same batch that set the state to playing) and whose `highScore` equals
the live one (nothing writes it during play). -/
def playClockExpire (st : GameSt) : GameSt :=
  { endGameCaptured st 0 st.highScore with timeLeft := 0 }

/-- One full accepted move with its deferred continuations.  The two
`setTimeout` callbacks hold the `useCallback` closures of the render the
swipe came from, so the spawn's empty-cell scan and the game-over check both
read the pre-move grid object (`staleGrid`: pre-move arrangement, in-place
tile mutations visible) rather than the updated board, and the `endGame`
they invoke captured the pre-move `score` and `highScore`.  Only the spawn's
placement goes through a functional `setGrid` update guarded against the
live grid.  The random draws of the spawn are passed through. -/
def handleSwipe (st : GameSt) (dir : Dir) (now : Nat) (randIdx : Nat) (isTwo : Bool) : GameSt :=
  let r := handleSwipeMove st dir now
  if r.moved then
    let stale := staleGrid st.grid r.merged
    let st2 := addRandomTileOn r.st stale randIdx isTwo now
    if hasAvailableMoves stale then st2
    else endGameCaptured st2 st.score st.highScore
  else r.st

/-- The empty `GRID_SIZE × GRID_SIZE` board. -/
def emptyGrid : Grid := List.replicate GRID_SIZE (List.replicate GRID_SIZE none)

/-- `resetGame`: back to `idle` with a cleared board and no tiles.  No other
field is written. -/
def resetGame (st : GameSt) : GameSt :=
  { st with gameState := GState.idle, grid := emptyGrid, tiles := [] }

/-- `startCountdown`: unconditionally enter `countdown`, reset the counter to
3 and start a new countdown interval (the previous handle, if any, is
overwritten without being cleared). -/
def startCountdown (st : GameSt) : GameSt :=
  { st with gameState := GState.countdown, countdown := 3,
            countdownTimerCount := st.countdownTimerCount + 1 }

/-- `toggleSidebar` as far as engine state is concerned: flip the flag.
The game state is not written (pausing is not a state transition). -/
def toggleSidebar (st : GameSt) : GameSt :=
  { st with isSidebarOpen := !st.isSidebarOpen }

/-- A fresh tile input for concrete test boards. -/
def mkTile (i v : Nat) : Tile := ⟨i, v, false, false, 0, 0⟩

/-- A row `[2, 2, 2, 2]`. -/
def exRow2222 : Row :=
  [some (mkTile 1 2), some (mkTile 2 2), some (mkTile 3 2), some (mkTile 4 2)]

/-- A row `[2, 2, 4, _]`. -/
def exRow224 : Row :=
  [some (mkTile 1 2), some (mkTile 2 2), some (mkTile 3 4), none]

/-- A board whose first row is `[2, 2, 4, _]` and whose other rows are empty. -/
def exGrid224 : Grid :=
  [exRow224, List.replicate 4 none, List.replicate 4 none, List.replicate 4 none]

/-- A mid-game playing state on an empty board with a nonzero score and
streak. -/
def exSt : GameSt :=
  { grid := emptyGrid, tiles := [], gameState := GState.playing, score := 7,
    highScore := 3, timeLeft := 42, countdown := 0, mergeStreak := 2,
    lastMergeTime := 0, isSidebarOpen := false, tileIdCounter := 5,
    countdownTimerCount := 0 }

/-- `exSt` with the pause sidebar open. -/
def exStSide : GameSt := { exSt with isSidebarOpen := true }

/-- A tile left over from an earlier merge, with `isMatched` still set. -/
def exTileM : Tile := ⟨9, 4, true, false, 0, 0⟩

/-- A board holding only `exTileM` in its top-left corner. -/
def exGridM : Grid :=
  [[some exTileM, none, none, none], List.replicate 4 none,
   List.replicate 4 none, List.replicate 4 none]

/-- A playing state on `exGridM`: a left swipe moves nothing. -/
def exStM : GameSt := { exSt with grid := exGridM, tiles := [exTileM] }

/-- A playing state on `exGrid224`: a left swipe merges the two 2s. -/
def exStP : GameSt :=
  { exSt with grid := exGrid224,
              tiles := [mkTile 1 2, mkTile 2 2, mkTile 3 4] }

/-- Row `[2, 2, 8, 16]` — the only equal-adjacent pair of `exGridFull`. -/
def exRowF0 : Row :=
  [some (mkTile 1 2), some (mkTile 2 2), some (mkTile 3 8), some (mkTile 4 16)]

/-- Row `[32, 64, 128, 256]`. -/
def exRowF1 : Row :=
  [some (mkTile 5 32), some (mkTile 6 64), some (mkTile 7 128), some (mkTile 8 256)]

/-- Row `[512, 4, 1024, 2]`. -/
def exRowF2 : Row :=
  [some (mkTile 9 512), some (mkTile 10 4), some (mkTile 11 1024), some (mkTile 12 2)]

/-- Row `[64, 8, 32, 128]`. -/
def exRowF3 : Row :=
  [some (mkTile 13 64), some (mkTile 14 8), some (mkTile 15 32), some (mkTile 16 128)]

/-- A full board whose only move is merging the two 2s of the first row;
after that merge, the stale view (old positions, absorber doubled to 4,
absorbed tile still showing 2) has no equal-adjacent pair left. -/
def exGridFull : Grid := [exRowF0, exRowF1, exRowF2, exRowF3]

/-- A playing state on the full board `exGridFull`, with `score = 7`,
`highScore = 3` and time remaining. -/
def exStFull : GameSt := { exSt with grid := exGridFull }

/-- A playing state about to run out of time with a high current score. -/
def exStHot : GameSt := { exSt with score := 500, highScore := 3, timeLeft := 1 }

/-- C1: the spec claims merges are strictly pairwise and left-greedy, so that
`[2,2,2,2]` moved left yields `[4,4,_,_]`.  The code instead compares each
tile against its predecessor in the *filtered array* (`tiles[i-1]`), whose
fields are still the pre-pass ones even when that predecessor was itself just
absorbed, so a run of equal tiles chains: `[2,2,2,2]` yields `[4,_,_,_]` with
three recorded merges, silently dropping two tiles.  This theorem evaluates
the embedded `moveRowLeft` at that failing input. -/
theorem c1_row2222_chains_not_pairwise :
    (moveRowLeft exRow2222 0).row.map (Option.map Tile.value) =
      [some 4, none, none, none] ∧
    (moveRowLeft exRow2222 0).merges.map Tile.value = [4, 4, 4] ∧
    (moveRowLeft exRow2222 0).row.map (Option.map Tile.value) ≠
      [some 4, some 4, none, none] := by decide

/-- C3 counterexample: the claim says `resetGame` zeroes `score` and
`mergeStreak`; on a concrete state with `score = 7` and `mergeStreak = 2`
the code returns to `Idle` with both values untouched. -/
theorem c3_reset_keeps_score_counterexample :
    (resetGame exSt).gameState = GState.idle ∧
    (resetGame exSt).score ≠ 0 ∧ (resetGame exSt).mergeStreak ≠ 0 := by decide

/-- C3 amended: `resetGame` from any state returns to `Idle` with the board
cleared and the tile list emptied; `highScore` is preserved, and so are
`score`, `mergeStreak` and `lastMergeTime` (they are not zeroed: only
`startGame` zeroes them). -/
theorem c3_resetGame_fields (st : GameSt) :
    (resetGame st).gameState = GState.idle ∧
    (resetGame st).grid = emptyGrid ∧
    (resetGame st).tiles = [] ∧
    (resetGame st).score = st.score ∧
    (resetGame st).mergeStreak = st.mergeStreak ∧
    (resetGame st).lastMergeTime = st.lastMergeTime ∧
    (resetGame st).highScore = st.highScore :=
  ⟨rfl, rfl, rfl, rfl, rfl, rfl, rfl⟩

/-- C4 counterexample: the claim says `startCountdown` is a no-op while the
session is already `Playing` (or `Countdown`); on a concrete playing state
the call changes the state to `Countdown`, so it is not a no-op. -/
theorem c4_startCountdown_not_noop_counterexample :
    exSt.gameState = GState.playing ∧ startCountdown exSt ≠ exSt ∧
    (startCountdown exSt).gameState = GState.countdown := by decide

/-- C4 amended: `startCountdown` is unguarded: from any state (including
`Countdown` and `Playing`) it sets the state to `Countdown`, resets the
countdown to 3 and starts one more countdown interval; the board and scores
are untouched. -/
theorem c4_startCountdown_unguarded (st : GameSt) :
    (startCountdown st).gameState = GState.countdown ∧
    (startCountdown st).countdown = 3 ∧
    (startCountdown st).countdownTimerCount = st.countdownTimerCount + 1 ∧
    (startCountdown st).grid = st.grid ∧
    (startCountdown st).score = st.score ∧
    (startCountdown st).highScore = st.highScore :=
  ⟨rfl, rfl, rfl, rfl, rfl, rfl⟩

/-- C8 counterexample: the claim says every entry to `GameOver` sets
`highScore := score` when `score` strictly exceeds the current `highScore`.
On the full board `exStFull` (score 7, highScore 3) the final left move
scores 40 more, the deferred no-moves check fires — and the stale `endGame`
capture compares and stores the pre-move score 7, not the final score 47.
The play-clock path is worse: its capture is from the render where Playing
began, so its score is 0 and a timed-out game never records its score at
all (`exStHot`: score 500, highScore 3 left untouched). -/
theorem c8_stale_score_counterexample :
    (handleSwipe exStFull Dir.left 5000 0 true).gameState = GState.gameover ∧
    (handleSwipe exStFull Dir.left 5000 0 true).score = 47 ∧
    exStFull.highScore = 3 ∧
    (handleSwipe exStFull Dir.left 5000 0 true).highScore = 7 ∧
    (handleSwipe exStFull Dir.left 5000 0 true).highScore ≠
      (handleSwipe exStFull Dir.left 5000 0 true).score ∧
    exStHot.score > exStHot.highScore ∧
    (playClockExpire exStHot).gameState = GState.gameover ∧
    (playClockExpire exStHot).highScore = exStHot.highScore := by decide

/-- C8 amended: the `endGame` function itself updates `highScore` to the
score it reads exactly on strict improvement (max semantics).  But the
program's entries to `GameOver` run stale captures of `endGame`: the
play-clock expiry path compares the captured score 0 and so never updates
`highScore`, and a deferred capture comparing `scoreCap` against the (during
play unchanged) `highScore` stores `max scoreCap highScore` — the
pre-final-move score, not the current one.  On every path `highScore`
remains monotonically non-decreasing. -/
theorem c8_highscore_update_paths (st : GameSt) (scoreCap : Nat) :
    (endGame st).gameState = GState.gameover ∧
    (endGame st).highScore = max st.score st.highScore ∧
    st.highScore ≤ (endGame st).highScore ∧
    (playClockExpire st).gameState = GState.gameover ∧
    (playClockExpire st).highScore = st.highScore ∧
    (playClockExpire st).timeLeft = 0 ∧
    (endGameCaptured st scoreCap st.highScore).gameState = GState.gameover ∧
    (endGameCaptured st scoreCap st.highScore).highScore = max scoreCap st.highScore ∧
    st.highScore ≤ (endGameCaptured st scoreCap st.highScore).highScore := by
  refine ⟨rfl, ?_, ?_, rfl, ?_, rfl, rfl, ?_, ?_⟩ <;>
    simp only [endGame, endGameCaptured, playClockExpire] <;> split_ifs <;> omega

/-- C9: with a non-decreasing process clock, `createTile`'s id rule
`Date.now() + tileIdCounter.current++` is strictly increasing over the call
sequence, so no id is ever reused within a process lifetime. -/
theorem c9_createTile_ids_fresh (ts : Nat → Nat)
    (hmono : ∀ a b, a ≤ b → ts a ≤ ts b) (i j : Nat) (hij : i < j) :
    createTileIdAt ts i ≠ createTileIdAt ts j := by
  have h := hmono i j (Nat.le_of_lt hij)
  simp only [createTileIdAt, createTile]
  omega

/-- C9 witness: two successive calls under a constant clock get distinct ids. -/
theorem c9_witness :
    (∀ a b : Nat, a ≤ b → (5 : Nat) ≤ 5) ∧ 0 < 1 ∧
    createTileIdAt (fun _ => 5) 0 ≠ createTileIdAt (fun _ => 5) 1 :=
  ⟨fun _ _ _ => Nat.le_refl 5, Nat.zero_lt_one,
    c9_createTile_ids_fresh (fun _ => 5) (fun _ _ _ => Nat.le_refl 5) 0 1
      Nat.zero_lt_one⟩

/-- C10: while the sidebar is open, a swipe in any direction is ignored even
though the session stays `Playing`: the whole state (grid, tiles, score,
streak, last-merge instant) is returned unchanged, because `handleSwipe`
returns before touching anything. -/
theorem c10_sidebar_blocks_moves (st : GameSt) (dir : Dir)
    (now randIdx : Nat) (isTwo : Bool)
    (hside : st.isSidebarOpen = true) (hplay : st.gameState = GState.playing) :
    handleSwipe st dir now randIdx isTwo = st ∧
    (handleSwipe st dir now randIdx isTwo).gameState = GState.playing := by
  have hmove : handleSwipeMove st dir now = ⟨st, false, []⟩ := by
    simp [handleSwipeMove, hside]
  have hmain : handleSwipe st dir now randIdx isTwo = st := by
    simp [handleSwipe, hmove]
  exact ⟨hmain, by rw [hmain]; exact hplay⟩

/-- C10 witness: a concrete playing state with the sidebar open absorbs a
left swipe with no effect. -/
theorem c10_witness :
    (exStSide.isSidebarOpen = true ∧ exStSide.gameState = GState.playing) ∧
    handleSwipe exStSide Dir.left 100 0 true = exStSide ∧
    (handleSwipe exStSide Dir.left 100 0 true).gameState = GState.playing :=
  ⟨⟨rfl, rfl⟩, c10_sidebar_blocks_moves exStSide Dir.left 100 0 true rfl rfl⟩

/-- A pass that reports `moved = false` performed no merge: it recorded no
merge event and scored no points. -/
theorem goRow_not_moved (o : Row) (s : Nat) (rest : List Tile) :
    ∀ prev i ri, (goRow o s prev i ri rest).moved = false →
      (goRow o s prev i ri rest).merges = [] ∧
      (goRow o s prev i ri rest).points = 0 := by
  induction rest with
  | nil => intro prev i ri _; exact ⟨rfl, rfl⟩
  | cons c rest ih =>
    intro prev i ri h
    by_cases hc : prev.value = c.value ∧ prev.isMatched = false
    · simp [goRow, hc] at h
    · simp only [goRow, if_neg hc, Bool.or_eq_false_iff] at h
      simp only [goRow, if_neg hc]
      exact ih c (i + 1) (ri + 1) h.2

/-- The accumulated `setScore` deltas of a pass equal the merge points summed
over the recorded merge events, all at the same per-move streak. -/
theorem goRow_points_eq (o : Row) (s : Nat) (rest : List Tile) :
    ∀ prev i ri, (goRow o s prev i ri rest).points =
      ((goRow o s prev i ri rest).merges.map
        (fun t => mergePoints s t.value)).sum := by
  induction rest with
  | nil => intro prev i ri; rfl
  | cons c rest ih =>
    intro prev i ri
    by_cases hc : prev.value = c.value ∧ prev.isMatched = false
    · simp [goRow, hc, ih c (i + 1) ri]
    · simp [goRow, hc, ih c (i + 1) (ri + 1)]

/-- The pass never places more tiles than it consumes. -/
theorem goRow_placed_length (o : Row) (s : Nat) (rest : List Tile) :
    ∀ prev i ri, (goRow o s prev i ri rest).placed.length ≤ rest.length := by
  induction rest with
  | nil => intro prev i ri; exact Nat.le_refl 0
  | cons c rest ih =>
    intro prev i ri
    by_cases hc : prev.value = c.value ∧ prev.isMatched = false
    · simp only [goRow, if_pos hc, List.length_cons]
      exact Nat.le_succ_of_le (ih c (i + 1) ri)
    · simp only [goRow, if_neg hc, List.length_cons]
      exact Nat.succ_le_succ (ih c (i + 1) (ri + 1))

/-- Value accounting of the pass: the placed tiles, plus the doubling the
caller still owes `prev` when the first step merged into it, never exceed the
value consumed; chained (ghost) merges lose value. -/
theorem goRow_sum_le (o : Row) (s : Nat) (rest : List Tile) :
    ∀ prev i ri,
      (if (goRow o s prev i ri rest).mergedPrev then prev.value else 0) +
        sumTiles (goRow o s prev i ri rest).placed ≤ sumTiles rest := by
  induction rest with
  | nil => intro prev i ri; simp [goRow, sumTiles]
  | cons c rest ih =>
    intro prev i ri
    have hsum : sumTiles (c :: rest) = c.value + sumTiles rest := by
      simp [sumTiles]
    by_cases hc : prev.value = c.value ∧ prev.isMatched = false
    · have hv : prev.value = c.value := hc.1
      have h2 := ih c (i + 1) ri
      simp only [goRow, if_pos hc]
      rw [if_pos trivial, hsum]
      split_ifs at h2 <;> omega
    · have h2 := ih c (i + 1) (ri + 1)
      simp only [goRow, if_neg hc]
      rw [if_neg (by simp), hsum]
      split_ifs at h2 ⊢ with hb
      · simp only [sumTiles, List.map_cons, List.sum_cons, mutTile] at h2 ⊢
        omega
      · simp only [sumTiles, List.map_cons, List.sum_cons] at h2 ⊢
        omega

/-- Every recorded merge event is a tile of the scanned list (the absorber,
either `prev` or a later tile) with the merge mutation applied. -/
theorem goRow_merges_mem (o : Row) (s : Nat) (rest : List Tile) :
    ∀ prev i ri t, t ∈ (goRow o s prev i ri rest).merges →
      ∃ u, (u = prev ∨ u ∈ rest) ∧ t = mutTile u := by
  induction rest with
  | nil => intro prev i ri t ht; simp [goRow] at ht
  | cons c rest ih =>
    intro prev i ri t ht
    by_cases hc : prev.value = c.value ∧ prev.isMatched = false
    · simp only [goRow, if_pos hc, List.mem_cons] at ht
      rcases ht with rfl | ht
      · exact ⟨prev, Or.inl rfl, rfl⟩
      · obtain ⟨u, hu, hmu⟩ := ih c (i + 1) ri t ht
        refine ⟨u, Or.inr ?_, hmu⟩
        rcases hu with rfl | hu
        · exact List.mem_cons_self _ _
        · exact List.mem_cons_of_mem _ hu
    · simp only [goRow, if_neg hc] at ht
      obtain ⟨u, hu, hmu⟩ := ih c (i + 1) (ri + 1) t ht
      refine ⟨u, Or.inr ?_, hmu⟩
      rcases hu with rfl | hu
      · exact List.mem_cons_self _ _
      · exact List.mem_cons_of_mem _ hu

/-- Row sums ignore the `none` padding: a row is worth the sum of its tiles. -/
theorem sumRow_eq_sumTiles_filterMap (row : Row) :
    sumRow row = sumTiles (row.filterMap id) := by
  induction row with
  | nil => rfl
  | cons o rest ih => cases o <;> simp [sumRow, sumTiles, valO, ih] <;>
      simpa [sumRow, sumTiles] using ih

/-- A placed-and-padded result row is worth the sum of its placed tiles. -/
theorem sumRow_padded (l : List Tile) (k : Nat) :
    sumRow (l.map some ++ List.replicate k none) = sumTiles l := by
  have hmap : List.map (valO ∘ some) l = List.map Tile.value l :=
    List.map_congr_left (fun a _ => rfl)
  simp [sumRow, sumTiles, List.map_append, List.map_map,
    List.map_replicate, List.sum_append, List.sum_replicate, valO, hmap]

/-- A `moveRowLeft` pass that reports no movement recorded no merge and
scored nothing. -/
theorem moveRowLeft_not_moved (row : Row) (s : Nat)
    (h : (moveRowLeft row s).moved = false) :
    (moveRowLeft row s).merges = [] ∧ (moveRowLeft row s).points = 0 := by
  rcases hf : row.filterMap id with _ | ⟨c, rest⟩
  · simp [moveRowLeft, hf]
  · simp only [moveRowLeft, hf, Bool.or_eq_false_iff] at h
    simp only [moveRowLeft, hf]
    exact goRow_not_moved row s rest c 1 1 h.2

/-- The score delta of a `moveRowLeft` pass is the merge points summed over
its recorded merge events. -/
theorem moveRowLeft_points_eq (row : Row) (s : Nat) :
    (moveRowLeft row s).points =
      ((moveRowLeft row s).merges.map (fun t => mergePoints s t.value)).sum := by
  rcases hf : row.filterMap id with _ | ⟨c, rest⟩
  · simp [moveRowLeft, hf]
  · simp only [moveRowLeft, hf]
    exact goRow_points_eq row s rest c 1 1

/-- The value sum of the result row of a `moveRowLeft` pass never exceeds the
value sum of the input row. -/
theorem moveRowLeft_sum_le (row : Row) (s : Nat) :
    sumRow (moveRowLeft row s).row ≤ sumRow row := by
  rcases hf : row.filterMap id with _ | ⟨c, rest⟩
  · simp [moveRowLeft, hf, sumRow, List.map_replicate, List.sum_replicate, valO]
  · have h3 := goRow_sum_le row s rest c 1 1
    rw [sumRow_eq_sumTiles_filterMap row, hf]
    simp only [moveRowLeft, hf]
    rw [sumRow_padded]
    split_ifs at h3 ⊢ with hb
    · simp only [sumTiles, List.map_cons, List.sum_cons, mutTile] at h3 ⊢
      omega
    · simp only [sumTiles, List.map_cons, List.sum_cons] at h3 ⊢
      omega

/-- Every merge event of a `moveRowLeft` pass is a tile of the input row with
the merge mutation applied: its result value is the doubled — i.e. summed —
value of the two equal tiles merged. -/
theorem moveRowLeft_merges_mem (row : Row) (s : Nat) (t : Tile)
    (ht : t ∈ (moveRowLeft row s).merges) :
    ∃ u, some u ∈ row ∧ t = mutTile u ∧ t.value = u.value + u.value := by
  rcases hf : row.filterMap id with _ | ⟨c, rest⟩
  · simp [moveRowLeft, hf] at ht
  · simp only [moveRowLeft, hf] at ht
    obtain ⟨u, hu, hmu⟩ := goRow_merges_mem row s rest c 1 1 t ht
    have hmem : u ∈ row.filterMap id := by
      rw [hf]
      rcases hu with rfl | hu
      · exact List.mem_cons_self _ _
      · exact List.mem_cons_of_mem _ hu
    have hsome : some u ∈ row := by
      obtain ⟨a, ha, hau⟩ := List.mem_filterMap.1 hmem
      simp only [id_eq] at hau
      rwa [hau] at ha
    exact ⟨u, hsome, hmu, by rw [hmu]; simp [mutTile]; omega⟩

/-- `safeProcessRow` version of `moveRowLeft_not_moved`. -/
theorem safeProcessRow_not_moved (row : Row) (s : Nat)
    (h : (safeProcessRow row s).moved = false) :
    (safeProcessRow row s).merges = [] ∧ (safeProcessRow row s).points = 0 := by
  by_cases he : row.isEmpty
  · simp [safeProcessRow, he]
  · simp only [safeProcessRow, if_neg he] at h ⊢
    exact moveRowLeft_not_moved row s h

/-- `safeProcessRow` version of `moveRowLeft_points_eq`. -/
theorem safeProcessRow_points_eq (row : Row) (s : Nat) :
    (safeProcessRow row s).points =
      ((safeProcessRow row s).merges.map (fun t => mergePoints s t.value)).sum := by
  by_cases he : row.isEmpty
  · simp [safeProcessRow, he]
  · simp only [safeProcessRow, if_neg he]
    exact moveRowLeft_points_eq row s

/-- `safeProcessRow` version of `moveRowLeft_sum_le`. -/
theorem safeProcessRow_sum_le (row : Row) (s : Nat) :
    sumRow (safeProcessRow row s).row ≤ sumRow row := by
  by_cases he : row.isEmpty
  · simp [safeProcessRow, he, sumRow, List.map_replicate, List.sum_replicate, valO]
  · simp only [safeProcessRow, if_neg he]
    exact moveRowLeft_sum_le row s

/-- `safeProcessRow` version of `moveRowLeft_merges_mem`. -/
theorem safeProcessRow_merges_mem (row : Row) (s : Nat) (t : Tile)
    (ht : t ∈ (safeProcessRow row s).merges) :
    ∃ u, some u ∈ row ∧ t = mutTile u ∧ t.value = u.value + u.value := by
  by_cases he : row.isEmpty
  · simp [safeProcessRow, he] at ht
  · simp only [safeProcessRow, if_neg he] at ht
    exact moveRowLeft_merges_mem row s t ht

/-- If no row of a collected move reports movement, the move recorded no
merge event and scored nothing. -/
theorem collectRes_not_moved (grid : Grid) (rs : List RowRes)
    (hall : ∀ r ∈ rs, r.moved = false → r.merges = [] ∧ r.points = 0)
    (h : (collectRes grid rs).moved = false) :
    (collectRes grid rs).merges = [] ∧ (collectRes grid rs).points = 0 := by
  simp only [collectRes] at h ⊢
  rw [List.any_eq_false] at h
  constructor
  · rw [List.flatten_eq_nil_iff]
    intro l hl
    obtain ⟨r, hr, rfl⟩ := List.mem_map.1 hl
    exact (hall r hr (by simpa using h r hr)).1
  · apply List.sum_eq_zero
    intro x hx
    obtain ⟨r, hr, rfl⟩ := List.mem_map.1 hx
    exact (hall r hr (by simpa using h r hr)).2

/-- The total score delta of a collected move is the merge points summed over
all recorded merge events. -/
theorem collectRes_points_eq (s : Nat) (grid : Grid) (rs : List RowRes)
    (hall : ∀ r ∈ rs, r.points = (r.merges.map (fun t => mergePoints s t.value)).sum) :
    (collectRes grid rs).points =
      ((collectRes grid rs).merges.map (fun t => mergePoints s t.value)).sum := by
  simp only [collectRes]
  rw [List.map_flatten, List.sum_flatten, List.map_map, List.map_map]
  exact congrArg List.sum (List.map_congr_left hall)

/-- A `moveGrid` that reports no movement recorded no merge and scored
nothing, in every direction. -/
theorem moveGrid_not_moved (g : Grid) (dir : Dir) (s : Nat)
    (h : (moveGrid g dir s).moved = false) :
    (moveGrid g dir s).merges = [] ∧ (moveGrid g dir s).points = 0 := by
  cases dir <;>
    exact collectRes_not_moved _ _
      (by intro r hr hm; obtain ⟨row, _, rfl⟩ := List.mem_map.1 hr
          exact safeProcessRow_not_moved _ s hm) h

/-- The total score delta of a `moveGrid` is the merge points summed over its
recorded merge events, in every direction. -/
theorem moveGrid_points_eq (g : Grid) (dir : Dir) (s : Nat) :
    (moveGrid g dir s).points =
      ((moveGrid g dir s).merges.map (fun t => mergePoints s t.value)).sum := by
  cases dir <;>
    exact collectRes_points_eq s _ _
      (by intro r hr; obtain ⟨row, _, rfl⟩ := List.mem_map.1 hr
          exact safeProcessRow_points_eq _ s)

/-- C5: on an accepted move, every merge of result value `v` is awarded
`floor(10 * v * 1.5 ^ streak)` points, all summed into the score, and every
merge of the move shares the one streak value computed once per move:
`mergeStreak + 1` when `now - lastMergeInstant < 2000`, else `0`.  When the
move merged anything, that shared value also becomes the stored streak and
`lastMergeInstant` becomes `now`. -/
theorem c5_score_combo (st : GameSt) (dir : Dir) (now : Nat)
    (hplay : st.gameState = GState.playing) (hside : st.isSidebarOpen = false) :
    (handleSwipeMove st dir now).st.score =
      st.score + ((handleSwipeMove st dir now).merged.map
        (fun t => mergePoints
          (if now - st.lastMergeTime < 2000 then st.mergeStreak + 1 else 0)
          t.value)).sum ∧
    ((handleSwipeMove st dir now).merged ≠ [] →
      (handleSwipeMove st dir now).st.mergeStreak =
        (if now - st.lastMergeTime < 2000 then st.mergeStreak + 1 else 0) ∧
      (handleSwipeMove st dir now).st.lastMergeTime = now) := by
  have hcond : (st.isSidebarOpen || !decide (st.gameState = GState.playing)) = false := by
    simp [hside, hplay]
  by_cases hmoved :
    (moveGrid (clearFlags st.grid) dir
      (if now - st.lastMergeTime < 2000 then st.mergeStreak + 1 else 0)).moved = true
  · simp only [handleSwipeMove, hcond, Bool.false_eq_true, if_false, hmoved, if_true]
    refine ⟨?_, ?_⟩
    · exact congrArg (st.score + ·) (moveGrid_points_eq _ dir _)
    · intro hne
      constructor
      · rw [if_pos (List.length_pos.2 hne)]
      · rw [if_pos (List.length_pos.2 hne)]
  · rw [Bool.not_eq_true] at hmoved
    have hz := moveGrid_not_moved _ dir _ hmoved
    simp only [handleSwipeMove, hcond, Bool.false_eq_true, if_false, hmoved, if_true]
    refine ⟨?_, ?_⟩
    · rw [hz.1, hz.2]
      simp
    · intro hne
      rw [hz.1] at hne
      exact absurd rfl hne

/-- C5 witness: on the `[2,2,4,_]` board a left swipe at time 5000 (no prior
merge within 2s, so streak 0) scores `floor(10 * 4 * 1.5^0) = 40`. -/
theorem c5_witness :
    (exStP.gameState = GState.playing ∧ exStP.isSidebarOpen = false) ∧
    (handleSwipeMove exStP Dir.left 5000).st.score =
      exStP.score + ((handleSwipeMove exStP Dir.left 5000).merged.map
        (fun t => mergePoints
          (if 5000 - exStP.lastMergeTime < 2000 then exStP.mergeStreak + 1 else 0)
          t.value)).sum ∧
    (handleSwipeMove exStP Dir.left 5000).st.score = 47 :=
  ⟨⟨rfl, rfl⟩, (c5_score_combo exStP Dir.left 5000 rfl rfl).1, by decide⟩

/-- C6 counterexample: the claim says a `changed = false` move leaves the
board byte-for-byte identical including every tile field.  On a board holding
one tile whose `isMatched` flag is still set from an earlier merge, a left
swipe moves nothing — yet the flag-reset loop at the top of `handleSwipe` has
already mutated the shared tile object, so the board is not identical. -/
theorem c6_noop_clears_flag_counterexample :
    (handleSwipeMove exStM Dir.left 5000).moved = false ∧
    (handleSwipeMove exStM Dir.left 5000).st.grid ≠ exStM.grid ∧
    (handleSwipeMove exStM Dir.left 5000).st.score = exStM.score := by decide

/-- C6 amended: a move that produces no change (`moved = false`) leaves the
state unchanged except that the `isMatched` flag of every tile on the board
is cleared (the reset at the start of move processing): cell occupancy, tile
ids, values and positions are untouched, the score, merge streak and
last-merge instant keep their values, and no tile is spawned. -/
theorem c6_noop_move (st : GameSt) (dir : Dir) (now randIdx : Nat) (isTwo : Bool)
    (hplay : st.gameState = GState.playing) (hside : st.isSidebarOpen = false)
    (hnm : (handleSwipeMove st dir now).moved = false) :
    handleSwipe st dir now randIdx isTwo =
      { st with grid := clearFlags st.grid,
                tiles := syncTilesNoop st.tiles st.grid } ∧
    (handleSwipe st dir now randIdx isTwo).tiles.length = st.tiles.length := by
  have hcond : (st.isSidebarOpen || !decide (st.gameState = GState.playing)) = false := by
    simp [hside, hplay]
  by_cases hmoved :
    (moveGrid (clearFlags st.grid) dir
      (if now - st.lastMergeTime < 2000 then st.mergeStreak + 1 else 0)).moved = true
  · exfalso
    simp only [handleSwipeMove, hcond, Bool.false_eq_true, if_false, hmoved,
      if_true] at hnm
    exact Bool.noConfusion hnm
  · rw [Bool.not_eq_true] at hmoved
    have hz := moveGrid_not_moved _ dir _ hmoved
    have hmain : handleSwipe st dir now randIdx isTwo =
        { st with grid := clearFlags st.grid,
                  tiles := syncTilesNoop st.tiles st.grid } := by
      simp only [handleSwipe, handleSwipeMove, hcond, Bool.false_eq_true, if_false,
        hmoved, if_true, hz.2, Nat.add_zero]
    refine ⟨hmain, ?_⟩
    rw [hmain]
    simp [syncTilesNoop]

/-- C6 witness: the concrete no-op move of the counterexample satisfies the
amended description. -/
theorem c6_witness :
    (exStM.gameState = GState.playing ∧ exStM.isSidebarOpen = false ∧
      (handleSwipeMove exStM Dir.left 5000).moved = false) ∧
    handleSwipe exStM Dir.left 5000 0 true =
      { exStM with grid := clearFlags exStM.grid,
                   tiles := syncTilesNoop exStM.tiles exStM.grid } ∧
    (handleSwipe exStM Dir.left 5000 0 true).tiles.length = exStM.tiles.length :=
  ⟨⟨rfl, rfl, by decide⟩,
    c6_noop_move exStM Dir.left 5000 0 true rfl rfl (by decide)⟩

/-- A list of length 4 is a four-element list. -/
theorem exists_len4 {α : Type} (l : List α) (h : l.length = 4) :
    ∃ a b c d, l = [a, b, c, d] := by
  rcases l with _ | ⟨a, l⟩
  · simp at h
  rcases l with _ | ⟨b, l⟩
  · simp at h
  rcases l with _ | ⟨c, l⟩
  · simp at h
  rcases l with _ | ⟨d, l⟩
  · simp at h
  rcases l with _ | ⟨e, l⟩
  · exact ⟨a, b, c, d, rfl⟩
  · simp at h

/-- Flipping a row preserves its value sum. -/
theorem sumRow_safeFlip (row : Row) :
    sumRow (safeFlipHorizontally row) = sumRow row := by
  by_cases he : row.isEmpty
  · rw [List.isEmpty_iff] at he
    subst he
    simp [safeFlipHorizontally, sumRow, List.map_replicate, List.sum_replicate, valO]
  · simp [safeFlipHorizontally, he, sumRow, List.map_reverse, List.sum_reverse]

/-- Flipping preserves row length 4. -/
theorem length_safeFlip (row : Row) (h : row.length = 4) :
    (safeFlipHorizontally row).length = 4 := by
  by_cases he : row.isEmpty
  · simp [safeFlipHorizontally, he, GRID_SIZE]
  · simp [safeFlipHorizontally, he, h]

/-- A tile seen in a flipped row is a tile of the row. -/
theorem mem_safeFlip (row : Row) (u : Tile)
    (h : some u ∈ safeFlipHorizontally row) : some u ∈ row := by
  by_cases he : row.isEmpty
  · simp [safeFlipHorizontally, he] at h
  · simpa [safeFlipHorizontally, he] using h

/-- The result row of a `moveRowLeft` pass on a row of at most `GRID_SIZE`
tiles has exactly `GRID_SIZE` cells. -/
theorem moveRowLeft_row_length (row : Row) (s : Nat) (h : row.length ≤ 4) :
    (moveRowLeft row s).row.length = 4 := by
  rcases hf : row.filterMap id with _ | ⟨c, rest⟩
  · simp [moveRowLeft, hf, GRID_SIZE]
  · have hlen : (c :: rest).length ≤ row.length := by
      rw [← hf]; exact List.length_filterMap_le id row
    have hgo := goRow_placed_length row s rest c 1 1
    simp only [moveRowLeft, hf, List.length_append, List.length_map,
      List.length_replicate, List.length_cons, GRID_SIZE]
    simp only [List.length_cons] at hlen
    omega

/-- `safeProcessRow` version of `moveRowLeft_row_length`. -/
theorem safeProcessRow_row_length (row : Row) (s : Nat) (h : row.length ≤ 4) :
    (safeProcessRow row s).row.length = 4 := by
  by_cases he : row.isEmpty
  · simp [safeProcessRow, he, GRID_SIZE]
  · simp only [safeProcessRow, if_neg he]
    exact moveRowLeft_row_length row s h

/-- Transposing a 4 × 4 grid preserves its value sum. -/
theorem sumGrid_transposeM (g : Grid) (hg : g.length = 4)
    (hr : ∀ r ∈ g, r.length = 4) : sumGrid (transposeM g) = sumGrid g := by
  obtain ⟨r0, r1, r2, r3, rfl⟩ := exists_len4 g hg
  obtain ⟨a0, a1, a2, a3, h0⟩ := exists_len4 r0 (hr r0 (by simp))
  obtain ⟨b0, b1, b2, b3, h1⟩ := exists_len4 r1 (hr r1 (by simp))
  obtain ⟨c0, c1, c2, c3, h2⟩ := exists_len4 r2 (hr r2 (by simp))
  obtain ⟨d0, d1, d2, d3, h3⟩ := exists_len4 r3 (hr r3 (by simp))
  subst h0 h1 h2 h3
  have ht : transposeM [[a0, a1, a2, a3], [b0, b1, b2, b3],
      [c0, c1, c2, c3], [d0, d1, d2, d3]] =
      [[a0, b0, c0, d0], [a1, b1, c1, d1], [a2, b2, c2, d2], [a3, b3, c3, d3]] := rfl
  rw [ht]
  simp only [sumGrid, sumRow, List.map_cons, List.map_nil, List.sum_cons,
    List.sum_nil]
  omega

/-- Untransposing a 4 × 4 grid preserves its value sum. -/
theorem sumGrid_untransposeM (t : Grid) (ht : t.length = 4)
    (hr : ∀ r ∈ t, r.length = 4) : sumGrid (untransposeM t) = sumGrid t := by
  obtain ⟨r0, r1, r2, r3, rfl⟩ := exists_len4 t ht
  obtain ⟨a0, a1, a2, a3, h0⟩ := exists_len4 r0 (hr r0 (by simp))
  obtain ⟨b0, b1, b2, b3, h1⟩ := exists_len4 r1 (hr r1 (by simp))
  obtain ⟨c0, c1, c2, c3, h2⟩ := exists_len4 r2 (hr r2 (by simp))
  obtain ⟨d0, d1, d2, d3, h3⟩ := exists_len4 r3 (hr r3 (by simp))
  subst h0 h1 h2 h3
  have hu : untransposeM [[a0, a1, a2, a3], [b0, b1, b2, b3],
      [c0, c1, c2, c3], [d0, d1, d2, d3]] =
      [[a0, b0, c0, d0], [a1, b1, c1, d1], [a2, b2, c2, d2], [a3, b3, c3, d3]] := rfl
  rw [hu]
  simp only [sumGrid, sumRow, List.map_cons, List.map_nil, List.sum_cons,
    List.sum_nil]
  omega

/-- A tile seen in a row of the transposed grid sits in some row of the
original grid. -/
theorem mem_transposeM (g : Grid) (row : Row) (u : Tile)
    (hrow : row ∈ transposeM g) (hu : some u ∈ row) :
    ∃ r ∈ g, some u ∈ r := by
  simp only [transposeM, List.mem_map] at hrow
  obtain ⟨j, _, rfl⟩ := hrow
  rw [List.mem_map] at hu
  obtain ⟨r, hr, hget⟩ := hu
  refine ⟨r, hr, ?_⟩
  by_cases hj : j < r.length
  · rw [List.getD_eq_getElem r none hj] at hget
    rw [← hget]
    exact List.getElem_mem hj
  · rw [List.getD_eq_default r none (Nat.le_of_not_lt hj)] at hget
    exact Option.noConfusion hget

/-- The transposed grid has one row per column of the first row. -/
theorem transposeM_length (g : Grid) :
    (transposeM g).length = (g.headD []).length := by
  simp [transposeM]

/-- Every row of the transposed grid has one cell per row of the grid. -/
theorem transposeM_rows_length (g : Grid) :
    ∀ row ∈ transposeM g, row.length = g.length := by
  intro row hrow
  simp only [transposeM, List.mem_map] at hrow
  obtain ⟨j, _, rfl⟩ := hrow
  simp

/-- A merge event of a collected move comes from one of its rows. -/
theorem collectRes_merges_mem (grid : Grid) (rs : List RowRes) (t : Tile)
    (ht : t ∈ (collectRes grid rs).merges) : ∃ r ∈ rs, t ∈ r.merges := by
  simp only [collectRes] at ht
  rw [List.mem_flatten] at ht
  obtain ⟨l, hl, htl⟩ := ht
  obtain ⟨r, hr, rfl⟩ := List.mem_map.1 hl
  exact ⟨r, hr, htl⟩

/-- Every merge event of a `moveGrid`, in any direction, is a tile of the
input board with the merge mutation applied: its result value is the doubled
— i.e. summed — value of the two equal merged tiles. -/
theorem moveGrid_merges_mem (g : Grid) (dir : Dir) (s : Nat) (t : Tile)
    (ht : t ∈ (moveGrid g dir s).merges) :
    ∃ u, (∃ row ∈ g, some u ∈ row) ∧ t = mutTile u ∧
      t.value = u.value + u.value := by
  cases dir
  all_goals simp only [moveGrid] at ht
  case up =>
    obtain ⟨r, hr, htr⟩ := collectRes_merges_mem _ _ t ht
    obtain ⟨row, hrow, rfl⟩ := List.mem_map.1 hr
    obtain ⟨u, hu, hmu, hv⟩ := safeProcessRow_merges_mem row s t htr
    obtain ⟨r0, hr0, hu0⟩ := mem_transposeM g row u hrow hu
    exact ⟨u, ⟨r0, hr0, hu0⟩, hmu, hv⟩
  case down =>
    obtain ⟨r, hr, htr⟩ := collectRes_merges_mem _ _ t ht
    obtain ⟨row, hrow, rfl⟩ := List.mem_map.1 hr
    obtain ⟨u, hu, hmu, hv⟩ := safeProcessRow_merges_mem _ s t htr
    have hu2 := mem_safeFlip row u hu
    obtain ⟨r0, hr0, hu0⟩ := mem_transposeM g row u hrow hu2
    exact ⟨u, ⟨r0, hr0, hu0⟩, hmu, hv⟩
  case left =>
    obtain ⟨r, hr, htr⟩ := collectRes_merges_mem _ _ t ht
    obtain ⟨row, hrow, rfl⟩ := List.mem_map.1 hr
    obtain ⟨u, hu, hmu, hv⟩ := safeProcessRow_merges_mem row s t htr
    exact ⟨u, ⟨row, hrow, hu⟩, hmu, hv⟩
  case right =>
    obtain ⟨r, hr, htr⟩ := collectRes_merges_mem _ _ t ht
    obtain ⟨row, hrow, rfl⟩ := List.mem_map.1 hr
    obtain ⟨u, hu, hmu, hv⟩ := safeProcessRow_merges_mem _ s t htr
    exact ⟨u, ⟨row, hrow, mem_safeFlip row u hu⟩, hmu, hv⟩

/-- The board value sum after a `moveGrid` never exceeds the sum before, in
any direction. -/
theorem moveGrid_sum_le (g : Grid) (dir : Dir) (s : Nat)
    (hg : g.length = 4) (hr : ∀ r ∈ g, r.length = 4) :
    sumGrid (moveGrid g dir s).grid ≤ sumGrid g := by
  have htlen : (transposeM g).length = 4 := by
    rw [transposeM_length]
    rcases g with _ | ⟨r0, grest⟩
    · simp at hg
    · exact hr r0 (List.mem_cons_self _ _)
  have htrow : ∀ row ∈ transposeM g, row.length = 4 := by
    intro row hrow
    rw [transposeM_rows_length g row hrow, hg]
  cases dir
  case left =>
    simp only [moveGrid, collectRes, sumGrid, List.map_map]
    apply List.sum_le_sum
    intro row _
    exact safeProcessRow_sum_le row s
  case right =>
    simp only [moveGrid, collectRes, sumGrid, List.map_map]
    apply List.sum_le_sum
    intro row _
    show sumRow (safeFlipHorizontally (safeProcessRow (safeFlipHorizontally row) s).row) ≤ sumRow row
    rw [sumRow_safeFlip]
    calc sumRow (safeProcessRow (safeFlipHorizontally row) s).row
        ≤ sumRow (safeFlipHorizontally row) := safeProcessRow_sum_le _ s
      _ = sumRow row := sumRow_safeFlip row
  case up =>
    simp only [moveGrid, collectRes, List.map_map]
    have hxlen : ((transposeM g).map
        (fun row => (safeProcessRow row s).row)).length = 4 := by
      rw [List.length_map]; exact htlen
    have hxrow : ∀ r ∈ (transposeM g).map
        (fun row => (safeProcessRow row s).row), r.length = 4 := by
      intro r hr2
      obtain ⟨row, hrow, rfl⟩ := List.mem_map.1 hr2
      exact safeProcessRow_row_length row s (Nat.le_of_eq (htrow row hrow))
    rw [show (RowRes.row ∘ fun row => safeProcessRow row s) =
        (fun row => (safeProcessRow row s).row) from rfl]
    rw [sumGrid_untransposeM _ hxlen hxrow]
    calc sumGrid ((transposeM g).map (fun row => (safeProcessRow row s).row))
        ≤ sumGrid (transposeM g) := by
          simp only [sumGrid, List.map_map]
          apply List.sum_le_sum
          intro row _
          exact safeProcessRow_sum_le row s
      _ = sumGrid g := sumGrid_transposeM g hg hr
  case down =>
    simp only [moveGrid, collectRes, List.map_map]
    have hxlen : ((transposeM g).map (fun row =>
        safeFlipHorizontally (safeProcessRow (safeFlipHorizontally row) s).row)).length = 4 := by
      rw [List.length_map]; exact htlen
    have hxrow : ∀ r ∈ (transposeM g).map (fun row =>
        safeFlipHorizontally (safeProcessRow (safeFlipHorizontally row) s).row),
        r.length = 4 := by
      intro r hr2
      obtain ⟨row, hrow, rfl⟩ := List.mem_map.1 hr2
      apply length_safeFlip
      apply safeProcessRow_row_length
      rw [length_safeFlip row (htrow row hrow)]
    rw [show ((fun r => safeFlipHorizontally r.row) ∘ fun row =>
        safeProcessRow (safeFlipHorizontally row) s) =
        (fun row => safeFlipHorizontally
          (safeProcessRow (safeFlipHorizontally row) s).row) from rfl]
    rw [sumGrid_untransposeM _ hxlen hxrow]
    calc sumGrid ((transposeM g).map (fun row =>
          safeFlipHorizontally (safeProcessRow (safeFlipHorizontally row) s).row))
        ≤ sumGrid (transposeM g) := by
          simp only [sumGrid, List.map_map]
          apply List.sum_le_sum
          intro row _
          show sumRow (safeFlipHorizontally
            (safeProcessRow (safeFlipHorizontally row) s).row) ≤ sumRow row
          rw [sumRow_safeFlip]
          calc sumRow (safeProcessRow (safeFlipHorizontally row) s).row
              ≤ sumRow (safeFlipHorizontally row) := safeProcessRow_sum_le _ s
            _ = sumRow row := sumRow_safeFlip row
      _ = sumGrid g := sumGrid_transposeM g hg hr

/-- C2 counterexample: the claimed conservation law says the board value sum
after a move equals the sum before **plus** the sum of all merge result
values.  On the board `[2,2,4,_]` (others rows empty) a left move behaves as
classic 2048: before-sum 8, after-sum 8, one merge of result value 4 — so the
claimed equation demands `8 = 8 + 4` and fails (merging two tiles of value
`v` into one of value `2v` conserves the sum, it does not add `2v`). -/
theorem c2_conservation_counterexample :
    sumGrid (moveGrid exGrid224 Dir.left 0).grid = 8 ∧
    sumGrid exGrid224 = 8 ∧
    ((moveGrid exGrid224 Dir.left 0).merges.map Tile.value).sum = 4 ∧
    sumGrid (moveGrid exGrid224 Dir.left 0).grid ≠
      sumGrid exGrid224 +
        ((moveGrid exGrid224 Dir.left 0).merges.map Tile.value).sum := by decide

/-- C2 amended: every recorded merge event is an absorbing tile of the board
whose value was doubled, so its result value is `v + v` — the sum of the two
equal merged tile values; and the total board value sum after a move is at
most (not `+ Σ resultValue` more than) the sum before.  Equality can fail
only through the chained-merge slip of C1, which drops tiles of a run of
three or more equal values; pairwise merging itself conserves the sum. -/
theorem c2_merge_value_and_sum_bound (g : Grid) (dir : Dir) (s : Nat)
    (hg : g.length = 4) (hr : ∀ r ∈ g, r.length = 4) :
    (∀ t ∈ (moveGrid g dir s).merges,
      ∃ u, (∃ row ∈ g, some u ∈ row) ∧ t = mutTile u ∧
        t.value = u.value + u.value) ∧
    sumGrid (moveGrid g dir s).grid ≤ sumGrid g :=
  ⟨fun t ht => moveGrid_merges_mem g dir s t ht, moveGrid_sum_le g dir s hg hr⟩

/-- C2 witness: on the concrete `[2,2,4,_]` board the single merge event is
the first `2`-tile doubled to result value `4 = 2 + 2`, and the after-sum is
bounded by the before-sum. -/
theorem c2_witness :
    (exGrid224.length = 4 ∧ (∀ r ∈ exGrid224, r.length = 4) ∧
      (⟨1, 4, true, true, 0, 0⟩ : Tile) ∈ (moveGrid exGrid224 Dir.left 0).merges) ∧
    (∃ u, (∃ row ∈ exGrid224, some u ∈ row) ∧
      (⟨1, 4, true, true, 0, 0⟩ : Tile) = mutTile u ∧
      (⟨1, 4, true, true, 0, 0⟩ : Tile).value = u.value + u.value) ∧
    sumGrid (moveGrid exGrid224 Dir.left 0).grid ≤ sumGrid exGrid224 :=
  ⟨⟨by decide, by decide, by decide⟩,
    (c2_merge_value_and_sum_bound exGrid224 Dir.left 0 (by decide) (by decide)).1
      ⟨1, 4, true, true, 0, 0⟩ (by decide),
    (c2_merge_value_and_sum_bound exGrid224 Dir.left 0 (by decide) (by decide)).2⟩

/-- The empty-cell scan finds nothing exactly when every cell of the
`GRID_SIZE × GRID_SIZE` frame is occupied. -/
theorem getEmptyCells_eq_nil_iff (g : Grid) :
    getEmptyCells g = [] ↔
      ∀ y < GRID_SIZE, ∀ x < GRID_SIZE, getCell g y x ≠ none := by
  simp only [getEmptyCells, List.flatten_eq_nil_iff, List.mem_map, List.mem_range]
  constructor
  · intro h y hy x hx hc
    have h2 := h ((List.range GRID_SIZE).filterMap (fun x =>
      if getCell g y x = none then some (x, y) else none)) ⟨y, hy, rfl⟩
    rw [List.filterMap_eq_nil_iff] at h2
    have h3 := h2 x (List.mem_range.2 hx)
    rw [if_pos hc] at h3
    exact Option.noConfusion h3
  · rintro h l ⟨y, hy, rfl⟩
    rw [List.filterMap_eq_nil_iff]
    intro x hx
    rw [if_neg (h y hy x (List.mem_range.1 hx))]

/-- A non-full board has an empty cell in the frame. -/
theorem exists_empty_of_not_full (g : Grid) (h : isBoardFull g = false) :
    ∃ y, y < GRID_SIZE ∧ ∃ x, x < GRID_SIZE ∧ getCell g y x = none := by
  rw [isBoardFull] at h
  have hnil : getEmptyCells g ≠ [] := by
    intro heq
    rw [heq] at h
    exact Bool.noConfusion h
  rcases hne : getEmptyCells g with _ | ⟨p, ps⟩
  · exact absurd hne hnil
  · have hp : p ∈ getEmptyCells g := by rw [hne]; exact List.mem_cons_self _ _
    simp only [getEmptyCells, List.mem_flatten, List.mem_map, List.mem_range] at hp
    obtain ⟨l, ⟨y, hy, rfl⟩, hpl⟩ := hp
    obtain ⟨x, hx, hif⟩ := List.mem_filterMap.1 hpl
    by_cases hc : getCell g y x = none
    · exact ⟨y, hy, x, List.mem_range.1 hx, hc⟩
    · rw [if_neg hc] at hif
      exact Option.noConfusion hif

/-- `hasAvailableMoves` returns `false` exactly when the board is dead in the
spec's sense: no empty cell remains and no two horizontally- or vertically-
adjacent cells hold tiles of equal value. -/
theorem hasAvailableMoves_eq_false_iff (g : Grid) :
    hasAvailableMoves g = false ↔
      ((∀ y < GRID_SIZE, ∀ x < GRID_SIZE, getCell g y x ≠ none) ∧
       (∀ y < GRID_SIZE, ∀ x, x + 1 < GRID_SIZE → ∀ t u,
          getCell g y x = some t → getCell g y (x + 1) = some u →
            u.value ≠ t.value) ∧
       (∀ x < GRID_SIZE, ∀ y, y + 1 < GRID_SIZE → ∀ t u,
          getCell g y x = some t → getCell g (y + 1) x = some u →
            u.value ≠ t.value)) := by
  by_cases hfull : isBoardFull g = true
  · have hnotfull : (!isBoardFull g) = false := by rw [hfull]; rfl
    rw [hasAvailableMoves, hnotfull]
    rw [if_neg (fun h => Bool.noConfusion h)]
    constructor
    · intro h
      rw [List.any_eq_false] at h
      refine ⟨?_, ?_, ?_⟩
      · rw [isBoardFull, List.isEmpty_iff, getEmptyCells_eq_nil_iff] at hfull
        exact hfull
      · intro y hy x hx1 t u htc huc hval
        have hx : x < GRID_SIZE := Nat.lt_of_succ_lt hx1
        have hyi := h y (List.mem_range.2 hy)
        rw [Bool.not_eq_true, List.any_eq_false] at hyi
        have hxi := hyi x (List.mem_range.2 hx)
        rw [Bool.not_eq_true, htc, huc] at hxi
        have hx3 : decide (x < GRID_SIZE - 1) = true := by
          simp [GRID_SIZE] at hx1 ⊢
          omega
        simp [hx3, hval] at hxi
      · intro x hx y hy1 t u htc huc hval
        have hy : y < GRID_SIZE := Nat.lt_of_succ_lt hy1
        have hyi := h y (List.mem_range.2 hy)
        rw [Bool.not_eq_true, List.any_eq_false] at hyi
        have hxi := hyi x (List.mem_range.2 hx)
        rw [Bool.not_eq_true, htc, huc] at hxi
        have hy3 : decide (y < GRID_SIZE - 1) = true := by
          simp [GRID_SIZE] at hy1 ⊢
          omega
        simp [hy3, hval] at hxi
    · rintro ⟨hocc, hhor, hver⟩
      rw [List.any_eq_false]
      intro y hyr
      rw [Bool.not_eq_true, List.any_eq_false]
      intro x hxr
      rw [Bool.not_eq_true]
      have hy := List.mem_range.1 hyr
      have hx := List.mem_range.1 hxr
      rcases hc : getCell g y x with _ | t
      · simp
      · simp only [Bool.or_eq_false_iff, Bool.and_eq_false_iff]
        constructor
        · by_cases hx1 : x + 1 < GRID_SIZE
          · right
            rcases hc2 : getCell g y (x + 1) with _ | u
            · simp
            · simpa using hhor y hy x hx1 t u hc hc2
          · left
            simp only [decide_eq_false_iff_not]
            simp [GRID_SIZE] at hx1 ⊢
            omega
        · by_cases hy1 : y + 1 < GRID_SIZE
          · right
            rcases hc2 : getCell g (y + 1) x with _ | u
            · simp
            · simpa using hver x hx y hy1 t u hc hc2
          · left
            simp only [decide_eq_false_iff_not]
            simp [GRID_SIZE] at hy1 ⊢
            omega
  · rw [Bool.not_eq_true] at hfull
    have htrue : hasAvailableMoves g = true := by
      rw [hasAvailableMoves, hfull]
      rfl
    rw [htrue]
    simp only [Bool.true_eq_false, false_iff]
    rintro ⟨hocc, -, -⟩
    obtain ⟨y, hy, x, hx, hc⟩ := exists_empty_of_not_full g hfull
    exact hocc y hy x hx hc

/-- `handleSwipeMove` never changes the game state. -/
theorem handleSwipeMove_gameState (st : GameSt) (dir : Dir) (now : Nat) :
    (handleSwipeMove st dir now).st.gameState = st.gameState := by
  simp only [handleSwipeMove]
  split_ifs <;> rfl

/-- `addRandomTileOn` never changes the game state. -/
theorem addRandomTileOn_gameState (st : GameSt) (snapshot : Grid)
    (randIdx : Nat) (isTwo : Bool) (now : Nat) :
    (addRandomTileOn st snapshot randIdx isTwo now).gameState = st.gameState := by
  simp only [addRandomTileOn]
  split_ifs <;> rfl

/-- C7 counterexample: the claim ties the `GameOver` transition to the
post-spawn board.  On the full board `exStFull` the left move merges the one
pair and frees cell (0,3); the deferred closures still scan the pre-move
grid object, so the spawn sees no empty cell and is skipped, and the
game-over check sees a full, pair-free stale board and fires — the session
enters `GameOver` with time remaining even though the post-spawn board has
an empty cell. -/
theorem c7_stale_check_counterexample :
    exStFull.gameState = GState.playing ∧
    (handleSwipeMove exStFull Dir.left 5000).moved = true ∧
    0 < exStFull.timeLeft ∧
    (handleSwipe exStFull Dir.left 5000 0 true).gameState = GState.gameover ∧
    getCell (handleSwipe exStFull Dir.left 5000 0 true).grid 0 3 = none := by decide

/-- C7 amended: after an accepted board-changing move, the deferred game-over
check runs against the stale pre-move grid snapshot held by the timeout
closures (pre-move arrangement with the in-place tile mutations: absorbers
doubled, absorbed tiles still in place), not the post-spawn board: the
session transitions to `GameOver` exactly when that stale snapshot has no
empty cell and no two horizontally- or vertically-adjacent cells of equal
value — regardless of remaining time. -/
theorem c7_gameover_stale_iff (st : GameSt) (dir : Dir) (now randIdx : Nat)
    (isTwo : Bool) (hplay : st.gameState = GState.playing)
    (hmv : (handleSwipeMove st dir now).moved = true) :
    ((handleSwipe st dir now randIdx isTwo).gameState = GState.gameover ↔
      ((∀ y < GRID_SIZE, ∀ x < GRID_SIZE,
          getCell (staleGrid st.grid (handleSwipeMove st dir now).merged)
            y x ≠ none) ∧
       (∀ y < GRID_SIZE, ∀ x, x + 1 < GRID_SIZE → ∀ t u,
          getCell (staleGrid st.grid (handleSwipeMove st dir now).merged)
            y x = some t →
          getCell (staleGrid st.grid (handleSwipeMove st dir now).merged)
            y (x + 1) = some u → u.value ≠ t.value) ∧
       (∀ x < GRID_SIZE, ∀ y, y + 1 < GRID_SIZE → ∀ t u,
          getCell (staleGrid st.grid (handleSwipeMove st dir now).merged)
            y x = some t →
          getCell (staleGrid st.grid (handleSwipeMove st dir now).merged)
            (y + 1) x = some u → u.value ≠ t.value))) := by
  have hchar := hasAvailableMoves_eq_false_iff
    (staleGrid st.grid (handleSwipeMove st dir now).merged)
  simp only [handleSwipe, hmv, if_true]
  by_cases hav : hasAvailableMoves
      (staleGrid st.grid (handleSwipeMove st dir now).merged) = true
  · rw [if_pos hav]
    have hgs : (addRandomTileOn (handleSwipeMove st dir now).st
        (staleGrid st.grid (handleSwipeMove st dir now).merged)
        randIdx isTwo now).gameState = GState.playing := by
      rw [addRandomTileOn_gameState, handleSwipeMove_gameState, hplay]
    constructor
    · intro h
      rw [hgs] at h
      exact GState.noConfusion h
    · intro h
      rw [← hchar] at h
      rw [hav] at h
      exact Bool.noConfusion h
  · rw [if_neg hav]
    rw [Bool.not_eq_true] at hav
    constructor
    · intro _
      exact hchar.1 hav
    · intro _
      rfl

/-- C7 witness: on the full board `exStFull` the left move is accepted with
time remaining, and the iff instance holds with both sides true: the stale
snapshot is full with no equal-adjacent pair, and the session is over. -/
theorem c7_witness :
    (exStFull.gameState = GState.playing ∧
      (handleSwipeMove exStFull Dir.left 5000).moved = true ∧
      0 < exStFull.timeLeft) ∧
    ((handleSwipe exStFull Dir.left 5000 0 true).gameState = GState.gameover ↔
      ((∀ y < GRID_SIZE, ∀ x < GRID_SIZE,
          getCell (staleGrid exStFull.grid
            (handleSwipeMove exStFull Dir.left 5000).merged) y x ≠ none) ∧
       (∀ y < GRID_SIZE, ∀ x, x + 1 < GRID_SIZE → ∀ t u,
          getCell (staleGrid exStFull.grid
            (handleSwipeMove exStFull Dir.left 5000).merged) y x = some t →
          getCell (staleGrid exStFull.grid
            (handleSwipeMove exStFull Dir.left 5000).merged) y (x + 1) = some u →
            u.value ≠ t.value) ∧
       (∀ x < GRID_SIZE, ∀ y, y + 1 < GRID_SIZE → ∀ t u,
          getCell (staleGrid exStFull.grid
            (handleSwipeMove exStFull Dir.left 5000).merged) y x = some t →
          getCell (staleGrid exStFull.grid
            (handleSwipeMove exStFull Dir.left 5000).merged) (y + 1) x = some u →
            u.value ≠ t.value))) :=
  ⟨⟨rfl, by decide, by decide⟩,
    c7_gameover_stale_iff exStFull Dir.left 5000 0 true rfl (by decide)⟩
